import Mathlib

/-!
Verification development for the incremental NFT graph accumulation engine of
the six-degrees application (`src/app/page.tsx`).

The session state kept in React `useState` hooks is modelled as an explicit
`SessionState` record, and each fetch-and-merge handler of the page
(`loadCollection`, `loadMoreNFTs`, `loadCollectors`, `loadMoreCollectors`,
`loadContractNFTs`) is modelled as a pure state-transition function that takes
the already-fetched response as an argument (the fetch itself is I/O and is
out of scope; the merge logic is translated line by line).

Modelling conventions:
* A JavaScript `Map` is an insertion-ordered association list; `Map.get`,
  `Map.set` and `Map.keys` become `mget`, `msetA` and `mkeys`.
* A JavaScript `Set` of numbers is an insertion-ordered duplicate-free list;
  `Set.add` becomes `saddNat`.
* Optional string fields of API payloads are `Option String`, with `none`
  standing for an absent or falsy (empty-string) value, so that JavaScript
  truthiness tests (`x || y`, `if (x)`) become `Option.getD` / `Option.isSome`.
* `String.prototype.toLowerCase` on the ASCII addresses handled by the app
  becomes `lowerStr` (character-wise lowercasing).
* The `collectors`, `collectorPagination` and `filteredDuplicates` maps are
  keyed in the source by `selectedNFT.id.toString()` and read back through
  `parseInt`; since this round-trip is the identity on the node ids used,
  those maps are keyed by `Nat` directly.
-/

namespace SixDegrees

/-- Character-wise lowercasing, the behaviour of `toLowerCase` on the ASCII
hex addresses this application handles. -/
def lowerStr (s : String) : String := ⟨s.data.map Char.toLower⟩

/-- `Map.get`: first binding of the key in an insertion-ordered association
list, if any. -/
def mget {α β : Type} [DecidableEq α] (k : α) : List (α × β) → Option β
  | [] => none
  | (k', v) :: rest => if k = k' then some v else mget k rest

/-- `Map.set`: replace the value in place if the key is present (keeping its
insertion position), otherwise append the new binding at the end. -/
def msetA {α β : Type} [DecidableEq α] (k : α) (v : β) :
    List (α × β) → List (α × β)
  | [] => [(k, v)]
  | (k', v') :: rest =>
    if k = k' then (k, v) :: rest else (k', v') :: msetA k v rest

/-- `Map.keys`, in insertion order. -/
def mkeys {α β : Type} (m : List (α × β)) : List α := m.map Prod.fst

/-- `Set.add` on a JavaScript `Set` of numbers: append if absent. -/
def saddNat (p : Nat) (s : List Nat) : List Nat := if p ∈ s then s else s ++ [p]

/-- The fields of the source `NFTData` interface that the accumulation core
reads (identity, display and contract fields). -/
structure NFTDataM where
  identifier : String
  collection : String
  contract : String
  name : String
  image_url : String
deriving DecidableEq

/-- The source `UserProfile` interface; every field used by the core is
optional there. -/
structure UserProfileM where
  address : Option String
  username : Option String
  profile_image_url : Option String
deriving DecidableEq

/-- Node kind, `'profile' | 'nft'` in the source `NodeData`. -/
inductive NodeKind
  | profile
  | nft
deriving DecidableEq

/-- A node of the projected graph (`NodeData` in the source, minus the
physics fields maintained by the force-graph library). -/
structure NodeDataM where
  id : Nat
  img : String
  username : String
  nodeType : NodeKind
  nftData : Option NFTDataM
  contract : Option String
deriving DecidableEq

/-- Link kind, `'profile-to-nft' | 'nft-to-nft'` in the source `LinkData`. -/
inductive LinkKind
  | profileToNft
  | nftToNft
deriving DecidableEq

/-- A link of the projected graph (`LinkData` in the source). -/
structure LinkDataM where
  source : Nat
  target : Nat
  linkType : LinkKind
deriving DecidableEq

/-- One entry of the `collectorPagination` map: `{ cursor, hasMore }`. -/
structure CollectorPag where
  cursor : Option String
  hasMore : Bool
deriving DecidableEq

/-- One entry of the `contractPagination` map: `{ next, hasMore }`. -/
structure ContractPag where
  next : Option String
  hasMore : Bool
deriving DecidableEq

/-- The accumulated session state: the `useState` stores of the page that the
graph accumulation core reads and writes. -/
structure SessionState where
  userProfile : Option UserProfileM
  nfts : List NFTDataM
  collectors : List (Nat × List String)
  collectorProfiles : List (String × UserProfileM)
  nftOwnership : List (Nat × Nat)
  filteredDuplicates : List (Nat × Nat)
  collectorPagination : List (Nat × CollectorPag)
  existingNFTs : List (String × Nat)
  multiOwnership : List (Nat × List Nat)
  expandedContracts : List String
  contractNFTs : List (String × List String)
  contractPagination : List (String × ContractPag)
  nextToken : Option String
  hasMoreNFTs : Bool
  errorMsg : String
deriving DecidableEq

/-- A page of an owner-scoped or contract-scoped NFT listing
(`NFTResponse` in the source): items plus an optional continuation token. -/
structure NFTResp where
  nfts : List NFTDataM
  next : Option String
deriving DecidableEq

/-- A page of a collector listing: owner addresses, cursor and has-more
flag, as returned by the collectors API route. -/
structure CollectorsResp where
  owners : List String
  cursor : Option String
  hasMore : Bool
deriving DecidableEq

/-- The NFT identity key, built in the source as
`nftKey = nft.contract + ":" + nft.identifier`. -/
def nftKey (n : NFTDataM) : String := n.contract ++ ":" ++ n.identifier

/-- Truncated-address display name, `address.slice(0, 6) + '...' +
address.slice(-4)` in the source. -/
def shortAddr (a : String) : String := a.take 6 ++ "..." ++ a.takeRight 4

/-- The basic profile committed when enrichment fails or returns not-ok:
truncated-address username and an identicon avatar seeded by the address
string as given. -/
def fallbackProfile (a : String) : UserProfileM :=
  { address := some a
    username := some (shortAddr a)
    profile_image_url :=
      some ("https://api.dicebear.com/7.x/identicon/svg?seed=" ++ a) }

/-- The empty session, as produced by initial render or `handleReset`. -/
def initialState : SessionState :=
  { userProfile := none, nfts := [], collectors := [], collectorProfiles := []
    nftOwnership := [], filteredDuplicates := [], collectorPagination := []
    existingNFTs := [], multiOwnership := [], expandedContracts := []
    contractNFTs := [], contractPagination := [], nextToken := none
    hasMoreNFTs := false, errorMsg := "" }

/-- `loadProfile`: a successful profile fetch stores the returned profile as
the session's main profile (node id 0). -/
def loadProfile (s : SessionState) (data : UserProfileM) : SessionState :=
  { s with userProfile := some data }

/-- Accumulator of the per-NFT merge loop in `loadCollection`,
`loadInitialCollection` and `loadMoreNFTs`: the local copies
`ownershipMap`, `multiOwnershipMap`, `existingNFTsMap` and the `newNFTs`
array. -/
structure CollAcc where
  ownership : List (Nat × Nat)
  multi : List (Nat × List Nat)
  existing : List (String × Nat)
  newNFTs : List NFTDataM
deriving DecidableEq

/-- One iteration of the `data.nfts.forEach` merge loop shared by the three
collection loaders: an already-admitted key gains the fetching profile as an
additional owner, a fresh key is admitted at the next sequential index with
this profile as its single initial owner. -/
def processCollectionNFT (baseLen profileNodeId : Nat) (acc : CollAcc)
    (n : NFTDataM) : CollAcc :=
  let key := nftKey n
  match mget key acc.existing with
  | some existingIndex =>
    let owners :=
      (mget existingIndex acc.multi).getD [(mget existingIndex acc.ownership).getD 0]
    { acc with multi := msetA existingIndex (saddNat profileNodeId owners) acc.multi }
  | none =>
    let newIndex := baseLen + acc.newNFTs.length
    { ownership := msetA newIndex profileNodeId acc.ownership
      multi := msetA newIndex [profileNodeId] acc.multi
      existing := msetA key newIndex acc.existing
      newNFTs := acc.newNFTs ++ [n] }

/-- `loadCollection` (also the body of `loadInitialCollection` and of the
merge part of `loadMoreNFTs`): merge one fetched page of NFTs owned by the
profile node `profileNodeId` into the session, then record the returned
continuation token. -/
def loadCollection (s : SessionState) (profileNodeId : Nat) (resp : NFTResp) :
    SessionState :=
  let acc := resp.nfts.foldl (processCollectionNFT s.nfts.length profileNodeId)
    { ownership := s.nftOwnership, multi := s.multiOwnership,
      existing := s.existingNFTs, newNFTs := [] }
  { s with
    nftOwnership := acc.ownership, multiOwnership := acc.multi,
    existingNFTs := acc.existing, nfts := s.nfts ++ acc.newNFTs,
    nextToken := resp.next, hasMoreNFTs := resp.next.isSome }

/-- The guard of `loadMoreNFTs`: it fetches only when a profile is selected
and a continuation token from the previous page is on hand. -/
def loadMoreNFTsFetches (s : SessionState) (hasSelectedProfile : Bool) : Bool :=
  hasSelectedProfile && s.nextToken.isSome

/-- `loadMoreNFTs`: behind its guard, the merge is identical to
`loadCollection`. -/
def loadMoreNFTs (s : SessionState) (hasSelectedProfile : Bool)
    (profileNodeId : Nat) (resp : NFTResp) : SessionState :=
  if loadMoreNFTsFetches s hasSelectedProfile then
    loadCollection s profileNodeId resp
  else s

/-- The `existingAddresses` set built by `loadCollectors` and
`loadMoreCollectors`: the lowercased main-profile address (when present and
truthy) plus the lowercased key of every already-materialized collector
profile. -/
def knownAddressesOf (s : SessionState) : List String :=
  (match s.userProfile with
    | some up =>
      match up.address with
      | some a => [lowerStr a]
      | none => []
    | none => []) ++ (mkeys s.collectorProfiles).map lowerStr

/-- The collector deduplication filter: keep the candidates whose lowercased
form is not in the known-address set. -/
def acceptedCollectors (s : SessionState) (candidates : List String) :
    List String :=
  candidates.filter fun a => !((knownAddressesOf s).contains (lowerStr a))

/-- The `duplicatesFiltered` count computed by both collector loaders. -/
def duplicateCount (s : SessionState) (candidates : List String) : Nat :=
  candidates.length - (acceptedCollectors s candidates).length

/-- The profile enrichment loop: for each accepted address not yet present in
the map (exact string key match), commit either the fetched profile or, on
failure or not-ok response, the deterministic fallback profile. The fetch
outcome is supplied by the oracle `fetchProfile` (`none` models a failed or
not-ok response). -/
def enrichProfiles (fetchProfile : String → Option UserProfileM)
    (accepted : List String) (m : List (String × UserProfileM)) :
    List (String × UserProfileM) :=
  accepted.foldl
    (fun m a =>
      if (mget a m).isSome then m
      else msetA a ((fetchProfile a).getD (fallbackProfile a)) m) m

/-- `loadCollectors`: first collector batch for NFT node `nftId` — filter the
fetched owner addresses against the known-address set, store the accepted
list and the pagination state, record the duplicate count, and enrich a
profile for each accepted address. -/
def loadCollectors (s : SessionState) (nftId : Nat) (resp : CollectorsResp)
    (fetchProfile : String → Option UserProfileM) : SessionState :=
  let accepted := acceptedCollectors s resp.owners
  { s with
    collectors := msetA nftId accepted s.collectors
    collectorPagination :=
      msetA nftId { cursor := resp.cursor, hasMore := resp.hasMore }
        s.collectorPagination
    filteredDuplicates :=
      msetA nftId (duplicateCount s resp.owners) s.filteredDuplicates
    collectorProfiles := enrichProfiles fetchProfile accepted s.collectorProfiles }

/-- The guard of `loadMoreCollectors`: it fetches only when pagination state
is recorded for the NFT and its `hasMore` flag is set. -/
def loadMoreCollectorsFetches (s : SessionState) (nftId : Nat) : Bool :=
  match mget nftId s.collectorPagination with
  | some pag => pag.hasMore
  | none => false

/-- `loadMoreCollectors`: behind its guard, like `loadCollectors` but the
accepted addresses are appended to the NFT's existing collector list and the
duplicate count is added to the stored one (only when nonzero, as in the
source). -/
def loadMoreCollectors (s : SessionState) (nftId : Nat) (resp : CollectorsResp)
    (fetchProfile : String → Option UserProfileM) : SessionState :=
  if loadMoreCollectorsFetches s nftId then
    let accepted := acceptedCollectors s resp.owners
    let dups := duplicateCount s resp.owners
    { s with
      collectors :=
        msetA nftId ((mget nftId s.collectors).getD [] ++ accepted) s.collectors
      collectorPagination :=
        msetA nftId { cursor := resp.cursor, hasMore := resp.hasMore }
          s.collectorPagination
      filteredDuplicates :=
        if dups > 0 then
          msetA nftId ((mget nftId s.filteredDuplicates).getD 0 + dups)
            s.filteredDuplicates
        else s.filteredDuplicates
      collectorProfiles :=
        enrichProfiles fetchProfile accepted s.collectorProfiles }
  else s

/-- Accumulator of the per-NFT loop in `loadContractNFTs`: the local
`existingNFTsMap`, the `newNFTIds` list (initialized with the contract's
previously expanded keys), the `newNFTs` array and the duplicate counter. -/
structure ContractAcc where
  existing : List (String × Nat)
  newNFTIds : List String
  newNFTs : List NFTDataM
  dups : Nat
deriving DecidableEq

/-- One iteration of the `data.nfts.forEach` loop of `loadContractNFTs`: a
fresh key is admitted at the next sequential index with no ownership fact; an
already-admitted key only bumps the duplicate counter. -/
def processContractNFT (baseLen : Nat) (acc : ContractAcc) (n : NFTDataM) :
    ContractAcc :=
  let key := nftKey n
  if (mget key acc.existing).isSome then { acc with dups := acc.dups + 1 }
  else
    { existing := msetA key (baseLen + acc.newNFTs.length) acc.existing
      newNFTIds := acc.newNFTIds ++ [key]
      newNFTs := acc.newNFTs ++ [n]
      dups := acc.dups }

/-- The guard of `loadContractNFTs`: a load-more call fetches only when
pagination state is recorded for the contract and its `hasMore` flag is set;
a first call always fetches. -/
def loadContractFetches (s : SessionState) (contract : String)
    (loadMore : Bool) : Bool :=
  if loadMore then
    match mget contract s.contractPagination with
    | some pag => pag.hasMore
    | none => false
  else true

/-- `loadContractNFTs`: merge one fetched page of a contract's NFTs into the
session (admitting only fresh identity keys, with no ownership facts), record
the contract pagination state, mark the contract as expanded, and extend the
contract's list of expansion-admitted NFT keys. -/
def loadContractNFTs (s : SessionState) (contract : String) (loadMore : Bool)
    (resp : NFTResp) : SessionState :=
  if loadContractFetches s contract loadMore then
    let acc := resp.nfts.foldl (processContractNFT s.nfts.length)
      { existing := s.existingNFTs,
        newNFTIds := (mget contract s.contractNFTs).getD [],
        newNFTs := [], dups := 0 }
    { s with
      existingNFTs := acc.existing, nfts := s.nfts ++ acc.newNFTs,
      contractPagination :=
        msetA contract { next := resp.next, hasMore := resp.next.isSome }
          s.contractPagination,
      expandedContracts :=
        if contract ∈ s.expandedContracts then s.expandedContracts
        else s.expandedContracts ++ [contract],
      contractNFTs := msetA contract acc.newNFTIds s.contractNFTs }
  else s

/-- Whether the NFT with identity key `key` was added through contract
expansion: the `isFromContractExpansion` test of `gData`, scanning the values
of the `contractNFTs` map for the key. -/
def isFromContractExpansion (s : SessionState) (key : String) : Bool :=
  s.contractNFTs.any fun kv => kv.2.contains key

/-- The owner node-id set used by the ownership-link section of `gData`:
`multiOwnership.get(index) || new Set([nftOwnership.get(index) || 0])`. -/
def effectiveOwners (s : SessionState) (index : Nat) : List Nat :=
  (mget index s.multiOwnership).getD [(mget index s.nftOwnership).getD 0]

/-- The node list of `gData`: the main profile node (id 0, only when a main
profile with a truthy image is on hand), one node per NFT (ids 1, 2, ...) and
one node per materialized collector profile (ids 1000, 1001, ...). -/
def gNodes (s : SessionState) : List NodeDataM :=
  (match s.userProfile with
    | some up =>
      match up.profile_image_url with
      | some img =>
        [{ id := 0, img := img, username := up.username.getD "Unknown User",
           nodeType := NodeKind.profile, nftData := none, contract := none }]
      | none => []
    | none => []) ++
  (s.nfts.enum.map fun p =>
    { id := p.1 + 1, img := p.2.image_url, username := p.2.name,
      nodeType := NodeKind.nft, nftData := some p.2,
      contract := some p.2.contract }) ++
  (s.collectorProfiles.enum.map fun p =>
    { id := 1000 + p.1, img := p.2.2.profile_image_url.getD "/avatar.svg",
      username := p.2.2.username.getD (shortAddr p.2.1),
      nodeType := NodeKind.profile, nftData := none, contract := some p.2.1 })

/-- The ownership-link section of `gData.links`: for every NFT not added
through contract expansion, one link from each owner node to the NFT node. -/
def ownershipLinks (s : SessionState) : List LinkDataM :=
  s.nfts.enum.flatMap fun p =>
    if isFromContractExpansion s (nftKey p.2) then []
    else
      (effectiveOwners s p.1).map fun o =>
        { source := o, target := p.1 + 1, linkType := LinkKind.profileToNft }

/-- The contract-sibling section of `gData.links`: one link per ordered index
pair `i < j` of NFTs sharing a contract address. -/
def contractLinks (s : SessionState) : List LinkDataM :=
  s.nfts.enum.flatMap fun p =>
    s.nfts.enum.filterMap fun q =>
      if p.1 < q.1 ∧ p.2.contract = q.2.contract then
        some { source := p.1 + 1, target := q.1 + 1,
               linkType := LinkKind.nftToNft }
      else none

/-- `Array.prototype.indexOf` on a list of strings: position of the first
exact match, if any (`-1`, here `none`, otherwise). -/
def jsIndexOf : List String → String → Option Nat
  | [], _ => none
  | x :: xs, a => if x = a then some 0 else (jsIndexOf xs a).map (· + 1)

/-- The collector node-id resolution of `gData`: map each stored collector
address to `1000 +` its position among the collector-profile keys, dropping
addresses with no materialized profile. -/
def collectorNodeIds (s : SessionState) (addrs : List String) : List Nat :=
  addrs.filterMap fun a =>
    match jsIndexOf (mkeys s.collectorProfiles) a with
    | some k => some (1000 + k)
    | none => none

/-- The collector-link section of `gData.links`: for every stored collector
list, one link from each resolved collector node to the NFT node. -/
def collectorLinks (s : SessionState) : List LinkDataM :=
  s.collectors.flatMap fun kv =>
    (collectorNodeIds s kv.2).map fun c =>
      { source := c, target := kv.1, linkType := LinkKind.profileToNft }

/-- The link list of `gData`: ownership links, then contract-sibling links,
then collector links. -/
def gLinks (s : SessionState) : List LinkDataM :=
  ownershipLinks s ++ contractLinks s ++ collectorLinks s

/-- The graph projection output shape. -/
structure GraphData where
  nodes : List NodeDataM
  links : List LinkDataM
deriving DecidableEq

/-- `gData`: the full graph projection, a pure function of the session
state. -/
def gData (s : SessionState) : GraphData :=
  { nodes := gNodes s, links := gLinks s }

/-- The id set of the projected nodes. -/
def nodeIds (s : SessionState) : List Nat := (gNodes s).map NodeDataM.id

/-- Absence of dangling links: every projected link joins two projected
nodes. -/
def noDanglingLinks (s : SessionState) : Prop :=
  ∀ l ∈ gLinks s, l.source ∈ nodeIds s ∧ l.target ∈ nodeIds s

instance noDanglingLinksDecidable (s : SessionState) :
    Decidable (noDanglingLinks s) :=
  List.decidableBAll _ (gLinks s)

/-- Whether the projection materializes the main profile node (id 0). -/
def hasMainNode (s : SessionState) : Bool :=
  match s.userProfile with
  | some up => up.profile_image_url.isSome
  | none => false

/-- Range constraint on a recorded owner node id: the main profile node id 0,
or a collector node id within the materialized collector-profile range. -/
def ownerIdOk (s : SessionState) (o : Nat) : Prop :=
  o = 0 ∨ (1000 ≤ o ∧ o < 1000 + s.collectorProfiles.length)

/-- Invariant of reachable sessions used by the no-dangling-links theorem:
every recorded owner id (in either ownership store) is a node id of a
materialized profile, and every stored collector list is keyed by the node id
of an admitted NFT. -/
def sessionInvariant (s : SessionState) : Prop :=
  (∀ kv ∈ s.multiOwnership, ∀ o ∈ kv.2, ownerIdOk s o) ∧
  (∀ kv ∈ s.nftOwnership, ownerIdOk s kv.2) ∧
  (∀ kv ∈ s.collectors, 1 ≤ kv.1 ∧ kv.1 ≤ s.nfts.length)

instance sessionInvariantDecidable (s : SessionState) :
    Decidable (sessionInvariant s) := by
  unfold sessionInvariant ownerIdOk
  infer_instance

/-! Concrete sessions used as evaluation points below. -/

/-- A sample NFT with identity key `"0xc:7"`. -/
def nftA : NFTDataM :=
  { identifier := "7", collection := "c", contract := "0xc",
    name := "Seven", image_url := "i7" }

/-- A main profile carrying a profile image. -/
def mainProfile : UserProfileM :=
  { address := some "0xmain", username := some "main",
    profile_image_url := some "img" }

/-- A main profile whose payload carries no profile image. -/
def imagelessProfile : UserProfileM :=
  { address := some "0xmain", username := none, profile_image_url := none }

/-- Session after searching a profile that has a profile image. -/
def baseState : SessionState := loadProfile initialState mainProfile

/-- Session after additionally expanding contract `"0xc"`, admitting `nftA`
with no ownership fact. -/
def expandedState : SessionState :=
  loadContractNFTs baseState "0xc" false { nfts := [nftA], next := none }

/-- Session after a collection fetch for the main profile then records an
ownership fact for the contract-expanded `nftA`. -/
def recordedState : SessionState :=
  loadCollection expandedState 0 { nfts := [nftA], next := none }

/-- Session after searching a profile without a profile image and loading its
collection: `nftA` is owned by node 0, but node 0 is not materialized. -/
def danglingState : SessionState :=
  loadCollection (loadProfile initialState imagelessProfile) 0
    { nfts := [nftA], next := none }

/-- Session after loading the main profile's collection: one NFT owned by the
materialized node 0. -/
def ownedState : SessionState :=
  loadCollection baseState 0 { nfts := [nftA], next := none }

/-- Session after a collector batch containing two case variants of one
address, with every enrichment fetch failing. -/
def caseBatchState : SessionState :=
  loadCollectors initialState 1
    { owners := ["0xAbC123", "0xabc123"], cursor := none, hasMore := false }
    (fun _ => none)

/-- Session after a collector batch with one mixed-case address whose
enrichment fetch fails. -/
def fallbackState : SessionState :=
  loadCollectors initialState 1
    { owners := ["0xAbCdEf123456"], cursor := none, hasMore := false }
    (fun _ => none)

/-- A concrete session whose three paginated subjects are all exhausted. -/
def pagClosedState : SessionState :=
  { initialState with
    collectorPagination := [(1, { cursor := none, hasMore := false })],
    contractPagination := [("0xc", { next := none, hasMore := false })],
    nextToken := none }

/-! Lemmas about the JavaScript map and set model. -/

theorem mget_msetA_self {α β : Type} [DecidableEq α] (k : α) (v : β)
    (m : List (α × β)) : mget k (msetA k v m) = some v := by
  induction m with
  | nil => simp [msetA, mget]
  | cons kv rest ih =>
    obtain ⟨k', v'⟩ := kv
    by_cases h : k = k'
    · simp [msetA, h, mget]
    · simp [msetA, h, mget, ih]

theorem mget_msetA_ne {α β : Type} [DecidableEq α] {k k' : α} (v : β)
    (m : List (α × β)) (h : k ≠ k') : mget k (msetA k' v m) = mget k m := by
  induction m with
  | nil => simp [msetA, mget, h]
  | cons kv rest ih =>
    obtain ⟨k₁, v₁⟩ := kv
    by_cases h1 : k' = k₁
    · subst h1
      simp [msetA, mget, h]
    · by_cases h2 : k = k₁ <;> simp [msetA, mget, h1, h2, ih]

theorem msetA_eq_of_mget {α β : Type} [DecidableEq α] {k : α} {v : β}
    {m : List (α × β)} (h : mget k m = some v) : msetA k v m = m := by
  induction m with
  | nil => simp [mget] at h
  | cons kv rest ih =>
    obtain ⟨k₁, v₁⟩ := kv
    by_cases h1 : k = k₁
    · subst h1
      simp [mget] at h
      simp [msetA, h]
    · simp [mget, h1] at h
      simp [msetA, h1, ih h]

theorem mget_mem {α β : Type} [DecidableEq α] {k : α} {v : β}
    {m : List (α × β)} (h : mget k m = some v) : (k, v) ∈ m := by
  induction m with
  | nil => simp [mget] at h
  | cons kv rest ih =>
    obtain ⟨k₁, v₁⟩ := kv
    by_cases h1 : k = k₁
    · subst h1
      simp [mget] at h
      simp [h]
    · simp [mget, h1] at h
      simp [ih h]

theorem mget_eq_none_iff {α β : Type} [DecidableEq α] (k : α)
    (m : List (α × β)) : mget k m = none ↔ k ∉ mkeys m := by
  induction m with
  | nil => simp [mget, mkeys]
  | cons kv rest ih =>
    obtain ⟨k₁, v₁⟩ := kv
    by_cases h1 : k = k₁
    · subst h1
      simp [mget, mkeys]
    · simp [mget, mkeys, h1] at ih ⊢
      exact ih

theorem mkeys_msetA {α β : Type} [DecidableEq α] (k : α) (v : β)
    (m : List (α × β)) :
    mkeys (msetA k v m) = if k ∈ mkeys m then mkeys m else mkeys m ++ [k] := by
  induction m with
  | nil => simp [msetA, mkeys]
  | cons kv rest ih =>
    obtain ⟨k₁, v₁⟩ := kv
    by_cases h1 : k = k₁
    · subst h1
      simp [msetA, mkeys]
    · simp only [msetA, if_neg h1, mkeys, List.map_cons] at ih ⊢
      rw [ih]
      by_cases h2 : k ∈ rest.map Prod.fst <;> simp [h1, h2]

theorem jsIndexOf_some_lt {l : List String} {a : String} {k : Nat}
    (h : jsIndexOf l a = some k) : k < l.length := by
  induction l generalizing k with
  | nil => simp [jsIndexOf] at h
  | cons x xs ih =>
    by_cases h1 : x = a
    · simp [jsIndexOf, h1] at h
      simp [← h]
    · simp [jsIndexOf, h1] at h
      obtain ⟨k', hk', rfl⟩ := h
      have := ih hk'
      simp only [List.length_cons]
      omega

/-! Stability of admitted identity-key bindings under the merge loops. -/

theorem processCollectionNFT_existing_stable {baseLen p : Nat} {acc : CollAcc}
    {n : NFTDataM} {k : String} {i : Nat} (h : mget k acc.existing = some i) :
    mget k (processCollectionNFT baseLen p acc n).existing = some i := by
  cases hm : mget (nftKey n) acc.existing with
  | some j => simp [processCollectionNFT, hm, h]
  | none =>
    by_cases hk : k = nftKey n
    · subst hk
      rw [h] at hm
      cases hm
    · simp [processCollectionNFT, hm, mget_msetA_ne _ _ hk, h]

theorem collFold_existing_stable {batch : List NFTDataM} {baseLen p : Nat}
    {acc : CollAcc} {k : String} {i : Nat}
    (h : mget k acc.existing = some i) :
    mget k (batch.foldl (processCollectionNFT baseLen p) acc).existing
      = some i := by
  induction batch generalizing acc with
  | nil => simpa using h
  | cons n rest ih =>
    rw [List.foldl_cons]
    exact ih (processCollectionNFT_existing_stable h)

theorem processContractNFT_existing_stable {baseLen : Nat} {acc : ContractAcc}
    {n : NFTDataM} {k : String} {i : Nat} (h : mget k acc.existing = some i) :
    mget k (processContractNFT baseLen acc n).existing = some i := by
  by_cases hm : (mget (nftKey n) acc.existing).isSome
  · simp [processContractNFT, hm, h]
  · by_cases hk : k = nftKey n
    · subst hk
      rw [h] at hm
      simp at hm
    · simp [processContractNFT, hm, mget_msetA_ne _ _ hk, h]

theorem contractFold_existing_stable {batch : List NFTDataM} {baseLen : Nat}
    {acc : ContractAcc} {k : String} {i : Nat}
    (h : mget k acc.existing = some i) :
    mget k (batch.foldl (processContractNFT baseLen) acc).existing = some i := by
  induction batch generalizing acc with
  | nil => simpa using h
  | cons n rest ih =>
    rw [List.foldl_cons]
    exact ih (processContractNFT_existing_stable h)

/-- C5: the collector deduplication filter removes a candidate exactly when
its lowercased form is in the known-address set (the main profile's address
plus every already-materialized collector address), and performs no
within-batch deduplication: a candidate not in the known set keeps all its
occurrences in the accepted output. -/
theorem C5_filter_known_set_only (s : SessionState) (candidates : List String)
    (a : String) :
    (a ∈ acceptedCollectors s candidates ↔
      a ∈ candidates ∧ lowerStr a ∉ knownAddressesOf s) ∧
    (lowerStr a ∉ knownAddressesOf s →
      (acceptedCollectors s candidates).count a = candidates.count a) := by
  constructor
  · simp [acceptedCollectors, List.mem_filter]
  · intro hnk
    have hp : (!((knownAddressesOf s).contains (lowerStr a))) = true := by
      simpa using hnk
    exact List.count_filter hp

/-- Witness for C5: with no known addresses, a twice-occurring candidate is
accepted and keeps both occurrences. -/
theorem C5_filter_known_set_only_witness :
    "0x1" ∈ acceptedCollectors initialState ["0x1", "0x2", "0x1"] ∧
    (acceptedCollectors initialState ["0x1", "0x2", "0x1"]).count "0x1" = 2 :=
  ⟨(C5_filter_known_set_only initialState ["0x1", "0x2", "0x1"] "0x1").1.mpr
      ⟨by decide, by decide⟩,
    by
      rw [(C5_filter_known_set_only initialState ["0x1", "0x2", "0x1"] "0x1").2
        (by decide)]
      decide⟩

theorem length_sub_filter_not {α : Type} (p : α → Bool) (l : List α) :
    l.length - (l.filter (fun a => !p a)).length = l.countP p := by
  induction l with
  | nil => simp
  | cons c cs ih =>
    have hle := List.length_filter_le (fun a => !p a) cs
    cases hp : p c <;>
      simp [List.filter_cons, List.countP_cons, hp] <;>
      omega

/-- C6: the accepted output of the collector filter preserves the candidates'
relative input order (it is a sublist of the input), and the reported
duplicate count equals the number of candidates minus the number accepted —
equivalently, the number of candidates whose lowercased form is known. -/
theorem C6_filter_order_and_count (s : SessionState)
    (candidates : List String) :
    (acceptedCollectors s candidates).Sublist candidates ∧
    duplicateCount s candidates =
      candidates.length - (acceptedCollectors s candidates).length ∧
    duplicateCount s candidates =
      candidates.countP fun a => (knownAddressesOf s).contains (lowerStr a) := by
  exact ⟨List.filter_sublist _, rfl,
    length_sub_filter_not (fun a => (knownAddressesOf s).contains (lowerStr a))
      candidates⟩

/-- C9: once the recorded pagination state for a subject has
`hasMore = false` (or, for the profile NFT list, no continuation token), the
corresponding load-more operation attempts no fetch and leaves the session
state unchanged. -/
theorem C9_exhausted_pagination_no_op :
    (∀ (s : SessionState) (nftId : Nat) (pag : CollectorPag),
      mget nftId s.collectorPagination = some pag → pag.hasMore = false →
      loadMoreCollectorsFetches s nftId = false ∧
      ∀ resp fetchProfile, loadMoreCollectors s nftId resp fetchProfile = s) ∧
    (∀ (s : SessionState) (contract : String) (pag : ContractPag),
      mget contract s.contractPagination = some pag → pag.hasMore = false →
      loadContractFetches s contract true = false ∧
      ∀ resp, loadContractNFTs s contract true resp = s) ∧
    (∀ (s : SessionState) (hasSelectedProfile : Bool) (profileNodeId : Nat),
      s.nextToken = none →
      loadMoreNFTsFetches s hasSelectedProfile = false ∧
      ∀ resp, loadMoreNFTs s hasSelectedProfile profileNodeId resp = s) := by
  refine ⟨?_, ?_, ?_⟩
  · intro s nftId pag hget hmore
    have hf : loadMoreCollectorsFetches s nftId = false := by
      simp [loadMoreCollectorsFetches, hget, hmore]
    exact ⟨hf, fun resp fetchProfile => by simp [loadMoreCollectors, hf]⟩
  · intro s contract pag hget hmore
    have hf : loadContractFetches s contract true = false := by
      simp [loadContractFetches, hget, hmore]
    exact ⟨hf, fun resp => by simp [loadContractNFTs, hf]⟩
  · intro s hasSel p hnone
    have hf : loadMoreNFTsFetches s hasSel = false := by
      simp [loadMoreNFTsFetches, hnone]
    exact ⟨hf, fun resp => by simp [loadMoreNFTs, hf]⟩

/-- Witness for C9 at a concrete exhausted-pagination state. -/
theorem C9_exhausted_pagination_no_op_witness :
    loadMoreCollectors pagClosedState 1
        { owners := ["0xa"], cursor := none, hasMore := true }
        (fun _ => none) = pagClosedState ∧
    loadContractNFTs pagClosedState "0xc" true
        { nfts := [], next := none } = pagClosedState ∧
    loadMoreNFTs pagClosedState true 0
        { nfts := [], next := none } = pagClosedState :=
  ⟨(C9_exhausted_pagination_no_op.1 pagClosedState 1
      { cursor := none, hasMore := false } (by decide) (by decide)).2 _ _,
    (C9_exhausted_pagination_no_op.2.1 pagClosedState "0xc"
      { next := none, hasMore := false } (by decide) (by decide)).2 _,
    (C9_exhausted_pagination_no_op.2.2 pagClosedState true 0 (by decide)).2 _⟩

theorem mem_saddNat (o q : Nat) (l : List Nat) :
    o ∈ saddNat q l ↔ o ∈ l ∨ o = q := by
  by_cases h : q ∈ l
  · simp only [saddNat, if_pos h]
    exact ⟨fun hm => Or.inl hm, fun hm => hm.elim id (fun he => he ▸ h)⟩
  · simp [saddNat, if_neg h]

theorem loadCollection_singleton_fresh (s : SessionState) (p : Nat)
    (n : NFTDataM) (nx : Option String)
    (h : mget (nftKey n) s.existingNFTs = none) :
    loadCollection s p { nfts := [n], next := nx } =
      { s with
        nftOwnership := msetA s.nfts.length p s.nftOwnership,
        multiOwnership := msetA s.nfts.length [p] s.multiOwnership,
        existingNFTs := msetA (nftKey n) s.nfts.length s.existingNFTs,
        nfts := s.nfts ++ [n],
        nextToken := nx, hasMoreNFTs := nx.isSome } := by
  simp [loadCollection, processCollectionNFT, h]

theorem loadCollection_singleton_existing (s : SessionState) (p : Nat)
    (n : NFTDataM) (nx : Option String) (i : Nat)
    (h : mget (nftKey n) s.existingNFTs = some i) :
    loadCollection s p { nfts := [n], next := nx } =
      { s with
        multiOwnership :=
          msetA i (saddNat p (effectiveOwners s i)) s.multiOwnership,
        nextToken := nx, hasMoreNFTs := nx.isSome } := by
  simp [loadCollection, processCollectionNFT, effectiveOwners, h]

theorem loadContractNFTs_singleton_fresh (s : SessionState) (c : String)
    (n : NFTDataM) (nx : Option String)
    (h : mget (nftKey n) s.existingNFTs = none) :
    loadContractNFTs s c false { nfts := [n], next := nx } =
      { s with
        existingNFTs := msetA (nftKey n) s.nfts.length s.existingNFTs,
        nfts := s.nfts ++ [n],
        contractPagination :=
          msetA c { next := nx, hasMore := nx.isSome } s.contractPagination,
        expandedContracts :=
          if c ∈ s.expandedContracts then s.expandedContracts
          else s.expandedContracts ++ [c],
        contractNFTs :=
          msetA c ((mget c s.contractNFTs).getD [] ++ [nftKey n])
            s.contractNFTs } := by
  simp [loadContractNFTs, loadContractFetches, processContractNFT, h]

theorem loadContractNFTs_singleton_existing (s : SessionState) (c : String)
    (n : NFTDataM) (nx : Option String) (i : Nat)
    (h : mget (nftKey n) s.existingNFTs = some i) :
    loadContractNFTs s c false { nfts := [n], next := nx } =
      { s with
        contractPagination :=
          msetA c { next := nx, hasMore := nx.isSome } s.contractPagination,
        expandedContracts :=
          if c ∈ s.expandedContracts then s.expandedContracts
          else s.expandedContracts ++ [c],
        contractNFTs :=
          msetA c ((mget c s.contractNFTs).getD []) s.contractNFTs } := by
  simp [loadContractNFTs, loadContractFetches, processContractNFT, h]

/-- C7: recording ownership has set semantics. From a state where NFT `n` is
not yet admitted, recording it for profile `p` and then for profile `q`
yields owner set `{p, q}` at its assigned index; the resulting owner set does
not depend on the recording order; recording the same pair twice leaves the
ownership ledger exactly as after recording it once; and recorded owner sets
never shrink under a recording step. -/
theorem C7_record_ownership_set_semantics (s : SessionState) (n : NFTDataM)
    (p q : Nat)
    (hfresh : mget (nftKey n) s.existingNFTs = none)
    (hwf : ∀ kv ∈ s.multiOwnership, kv.1 < s.nfts.length) :
    (∀ o,
      o ∈ (mget s.nfts.length
        (loadCollection (loadCollection s p { nfts := [n], next := none }) q
          { nfts := [n], next := none }).multiOwnership).getD []
      ↔ o = p ∨ o = q) ∧
    (∀ o,
      o ∈ (mget s.nfts.length
        (loadCollection (loadCollection s p { nfts := [n], next := none }) q
          { nfts := [n], next := none }).multiOwnership).getD []
      ↔ o ∈ (mget s.nfts.length
        (loadCollection (loadCollection s q { nfts := [n], next := none }) p
          { nfts := [n], next := none }).multiOwnership).getD []) ∧
    ((loadCollection (loadCollection s p { nfts := [n], next := none }) p
        { nfts := [n], next := none }).multiOwnership
      = (loadCollection s p { nfts := [n], next := none }).multiOwnership) ∧
    (∀ j owners, mget j s.multiOwnership = some owners →
      ∃ owners',
        mget j (loadCollection s p { nfts := [n], next := none }).multiOwnership
          = some owners' ∧ ∀ o ∈ owners, o ∈ owners') := by
  have second : ∀ r : Nat,
      mget (nftKey n)
        (loadCollection s r { nfts := [n], next := none }).existingNFTs
        = some s.nfts.length := by
    intro r
    rw [loadCollection_singleton_fresh s r n none hfresh]
    exact mget_msetA_self _ _ _
  have firstMulti : ∀ r : Nat,
      mget s.nfts.length
        (loadCollection s r { nfts := [n], next := none }).multiOwnership
        = some [r] := by
    intro r
    rw [loadCollection_singleton_fresh s r n none hfresh]
    exact mget_msetA_self _ _ _
  have secondOwners : ∀ r r' : Nat,
      mget s.nfts.length
        (loadCollection (loadCollection s r { nfts := [n], next := none }) r'
          { nfts := [n], next := none }).multiOwnership
        = some (saddNat r' [r]) := by
    intro r r'
    rw [loadCollection_singleton_existing _ r' n none s.nfts.length (second r)]
    have : effectiveOwners (loadCollection s r { nfts := [n], next := none })
        s.nfts.length = [r] := by
      unfold effectiveOwners
      rw [firstMulti r]
      rfl
    rw [this]
    exact mget_msetA_self _ _ _
  refine ⟨?_, ?_, ?_, ?_⟩
  · intro o
    rw [secondOwners p q]
    simp [mem_saddNat]
    try tauto
  · intro o
    rw [secondOwners p q, secondOwners q p]
    simp [mem_saddNat]
    try tauto
  · rw [loadCollection_singleton_existing _ p n none s.nfts.length (second p)]
    have heff : effectiveOwners (loadCollection s p { nfts := [n], next := none })
        s.nfts.length = [p] := by
      unfold effectiveOwners
      rw [firstMulti p]
      rfl
    rw [heff]
    have : saddNat p [p] = [p] := by simp [saddNat]
    rw [this]
    exact msetA_eq_of_mget (firstMulti p)
  · intro j owners hj
    refine ⟨owners, ?_, fun o ho => ho⟩
    rw [loadCollection_singleton_fresh s p n none hfresh]
    have hjlt : j < s.nfts.length := hwf (j, owners) (mget_mem hj)
    have hne : j ≠ s.nfts.length := Nat.ne_of_lt hjlt
    rw [mget_msetA_ne _ _ hne]
    exact hj

/-- Witness for C7 at a concrete fresh state: owner sets `{0, 1000}` in both
recording orders, and recording the pair `(nftA, 0)` twice equals recording
it once. -/
theorem C7_record_ownership_set_semantics_witness :
    (1000 ∈ (mget 0
      (loadCollection (loadCollection baseState 0 { nfts := [nftA], next := none })
        1000 { nfts := [nftA], next := none }).multiOwnership).getD []
      ↔ 1000 = 0 ∨ 1000 = 1000) ∧
    ((loadCollection (loadCollection baseState 0 { nfts := [nftA], next := none })
        0 { nfts := [nftA], next := none }).multiOwnership
      = (loadCollection baseState 0 { nfts := [nftA], next := none }).multiOwnership) :=
  ⟨(C7_record_ownership_set_semantics baseState nftA 0 1000 (by decide)
      (by decide)).1 1000,
    (C7_record_ownership_set_semantics baseState nftA 0 0 (by decide)
      (by decide)).2.2.1⟩

/-- C8: admission is idempotent across sources. A fresh identity key admitted
through an owner-collection fetch or a contract-expansion fetch is assigned
the next sequential index; admitting an already-admitted key again through
either source creates no new entity and resolves to the stored index; and
both merge operations preserve every stored key-to-index binding, so a
resolved index is stable for the rest of the session. -/
theorem C8_idempotent_admission (s : SessionState) (n : NFTDataM) (p : Nat)
    (c : String) (i : Nat) :
    (mget (nftKey n) s.existingNFTs = none →
      (mget (nftKey n)
          (loadCollection s p { nfts := [n], next := none }).existingNFTs
          = some s.nfts.length ∧
        (loadCollection s p { nfts := [n], next := none }).nfts.length
          = s.nfts.length + 1) ∧
      (mget (nftKey n)
          (loadContractNFTs s c false { nfts := [n], next := none }).existingNFTs
          = some s.nfts.length ∧
        (loadContractNFTs s c false { nfts := [n], next := none }).nfts.length
          = s.nfts.length + 1)) ∧
    (mget (nftKey n) s.existingNFTs = some i →
      ((loadCollection s p { nfts := [n], next := none }).nfts = s.nfts ∧
        mget (nftKey n)
          (loadCollection s p { nfts := [n], next := none }).existingNFTs
          = some i) ∧
      ((loadContractNFTs s c false { nfts := [n], next := none }).nfts = s.nfts ∧
        mget (nftKey n)
          (loadContractNFTs s c false { nfts := [n], next := none }).existingNFTs
          = some i)) ∧
    (mget (nftKey n) s.existingNFTs = some i →
      (∀ p' resp,
        mget (nftKey n) (loadCollection s p' resp).existingNFTs = some i) ∧
      (∀ c' lm resp,
        mget (nftKey n) (loadContractNFTs s c' lm resp).existingNFTs = some i)) := by
  refine ⟨?_, ?_, ?_⟩
  · intro hfresh
    constructor
    · rw [loadCollection_singleton_fresh s p n none hfresh]
      exact ⟨mget_msetA_self _ _ _, by simp⟩
    · rw [loadContractNFTs_singleton_fresh s c n none hfresh]
      exact ⟨mget_msetA_self _ _ _, by simp⟩
  · intro hex
    constructor
    · rw [loadCollection_singleton_existing s p n none i hex]
      exact ⟨rfl, hex⟩
    · rw [loadContractNFTs_singleton_existing s c n none i hex]
      exact ⟨rfl, hex⟩
  · intro hex
    constructor
    · intro p' resp
      exact collFold_existing_stable hex
    · intro c' lm resp
      by_cases hg : loadContractFetches s c' lm
      · simp only [loadContractNFTs, if_pos hg]
        exact contractFold_existing_stable hex
      · simp only [loadContractNFTs, if_neg hg]
        exact hex

/-- Witness for C8: admitting `nftA` first via contract expansion and again
via an owner-collection fetch yields one entity at the stable index 0. -/
theorem C8_idempotent_admission_witness :
    (mget (nftKey nftA)
        (loadContractNFTs baseState "0xc" false
          { nfts := [nftA], next := none }).existingNFTs
        = some baseState.nfts.length ∧
      (loadContractNFTs baseState "0xc" false
          { nfts := [nftA], next := none }).nfts.length
        = baseState.nfts.length + 1) ∧
    ((loadCollection expandedState 0 { nfts := [nftA], next := none }).nfts
        = expandedState.nfts ∧
      mget (nftKey nftA)
        (loadCollection expandedState 0 { nfts := [nftA], next := none }).existingNFTs
        = some 0) :=
  ⟨((C8_idempotent_admission baseState nftA 0 "0xc" 0).1 (by decide)).2,
    ((C8_idempotent_admission expandedState nftA 0 "0xc" 0).2.1 (by decide)).1⟩

/-- C10: merging a collection fetch by profile node `p` over an NFT that is
admitted but has neither a multi-ownership nor a single-ownership entry (the
contract-expansion admission state) sets its owner set to `{0, p}` — the main
profile node id 0 is included regardless of whether node 0 owns it. -/
theorem C10_unowned_merge_adds_node_zero (s : SessionState) (n : NFTDataM)
    (p i : Nat) (nx : Option String)
    (hkey : mget (nftKey n) s.existingNFTs = some i)
    (hm : mget i s.multiOwnership = none)
    (ho : mget i s.nftOwnership = none) :
    mget i (loadCollection s p { nfts := [n], next := nx }).multiOwnership
      = some (saddNat p [0]) ∧
    (∀ o, o ∈ saddNat p [0] ↔ o = 0 ∨ o = p) := by
  constructor
  · rw [loadCollection_singleton_existing s p n nx i hkey]
    have heff : effectiveOwners s i = [0] := by
      unfold effectiveOwners
      rw [hm, ho]
      rfl
    rw [heff]
    exact mget_msetA_self _ _ _
  · intro o
    simp [mem_saddNat]
    try tauto

/-- Witness for C10 at the concrete contract-expanded session: merging a
collection fetch by node 5 gives `nftA` the owner set `{0, 5}`. -/
theorem C10_unowned_merge_adds_node_zero_witness :
    mget 0 (loadCollection expandedState 5
        { nfts := [nftA], next := none }).multiOwnership
      = some (saddNat 5 [0]) ∧
    (5 ∈ saddNat 5 [0] ↔ 5 = 0 ∨ 5 = 5) :=
  ⟨(C10_unowned_merge_adds_node_zero expandedState nftA 5 0 none (by decide)
      (by decide) (by decide)).1,
    (C10_unowned_merge_adds_node_zero expandedState nftA 5 0 none (by decide)
      (by decide) (by decide)).2 5⟩

/-! Lemmas about the profile enrichment loop. -/

theorem enrichProfiles_cons (f : String → Option UserProfileM) (b : String)
    (rest : List String) (m : List (String × UserProfileM)) :
    enrichProfiles f (b :: rest) m =
      enrichProfiles f rest
        (if (mget b m).isSome then m
         else msetA b ((f b).getD (fallbackProfile b)) m) := rfl

theorem mget_enrichProfiles_of_some {f : String → Option UserProfileM}
    {l : List String} {m : List (String × UserProfileM)} {a : String}
    {v : UserProfileM} (h : mget a m = some v) :
    mget a (enrichProfiles f l m) = some v := by
  induction l generalizing m with
  | nil => exact h
  | cons b rest ih =>
    rw [enrichProfiles_cons]
    apply ih
    by_cases hb : (mget b m).isSome
    · rwa [if_pos hb]
    · rw [if_neg hb]
      by_cases hab : a = b
      · subst hab
        rw [h] at hb
        simp at hb
      · rw [mget_msetA_ne _ _ hab]
        exact h

theorem mget_enrichProfiles_fallback {f : String → Option UserProfileM}
    {l : List String} {m : List (String × UserProfileM)} {a : String}
    (hnone : mget a m = none) (hmem : a ∈ l) (hf : f a = none) :
    mget a (enrichProfiles f l m) = some (fallbackProfile a) := by
  induction l generalizing m with
  | nil => simp at hmem
  | cons b rest ih =>
    rw [enrichProfiles_cons]
    by_cases hab : a = b
    · subst hab
      have hb : ¬ (mget a m).isSome = true := by simp [hnone]
      rw [if_neg hb]
      have hv : (f a).getD (fallbackProfile a) = fallbackProfile a := by
        rw [hf]
        rfl
      rw [hv]
      exact mget_enrichProfiles_of_some (mget_msetA_self _ _ _)
    · have hmem' : a ∈ rest := by
        rcases List.mem_cons.mp hmem with h1 | h1
        · exact absurd h1 hab
        · exact h1
      by_cases hb : (mget b m).isSome
      · rw [if_pos hb]
        exact ih hnone hmem'
      · rw [if_neg hb]
        exact ih (by rw [mget_msetA_ne _ _ hab]; exact hnone) hmem'

theorem mem_mkeys_enrichProfiles {f : String → Option UserProfileM}
    {l : List String} {m : List (String × UserProfileM)} {b : String}
    (h : b ∈ mkeys (enrichProfiles f l m)) : b ∈ mkeys m ∨ b ∈ l := by
  induction l generalizing m with
  | nil => exact Or.inl h
  | cons c rest ih =>
    rw [enrichProfiles_cons] at h
    rcases ih h with h1 | h2
    · by_cases hc : (mget c m).isSome
      · rw [if_pos hc] at h1
        exact Or.inl h1
      · rw [if_neg hc, mkeys_msetA] at h1
        by_cases hcm : c ∈ mkeys m
        · rw [if_pos hcm] at h1
          exact Or.inl h1
        · rw [if_neg hcm] at h1
          rcases List.mem_append.mp h1 with h3 | h3
          · exact Or.inl h3
          · simp at h3
            subst h3
            exact Or.inr (List.mem_cons_self _ _)
    · exact Or.inr (List.mem_cons_of_mem _ h2)

/-- C2 (amended): across batches, case-insensitive identity holds — any key
added to the collector-profile map by either collector loader has a
lowercased form outside the known-address set at call time, so a case-variant
of the main profile address or of an already-materialized collector address
is filtered out and never materializes a second profile entry. (Within a
single batch this fails: two case variants of one address each materialize
their own entry — see the counterexample.) -/
theorem C2_case_variant_cross_batch_single_node (s : SessionState)
    (nftId : Nat) (resp : CollectorsResp)
    (fetchProfile : String → Option UserProfileM) (b : String) :
    (b ∈ mkeys (loadCollectors s nftId resp fetchProfile).collectorProfiles →
      b ∈ mkeys s.collectorProfiles ∨ lowerStr b ∉ knownAddressesOf s) ∧
    (b ∈ mkeys
        (loadMoreCollectors s nftId resp fetchProfile).collectorProfiles →
      b ∈ mkeys s.collectorProfiles ∨ lowerStr b ∉ knownAddressesOf s) := by
  have key : b ∈ mkeys (enrichProfiles fetchProfile
      (acceptedCollectors s resp.owners) s.collectorProfiles) →
      b ∈ mkeys s.collectorProfiles ∨ lowerStr b ∉ knownAddressesOf s := by
    intro h
    rcases mem_mkeys_enrichProfiles h with h1 | h1
    · exact Or.inl h1
    · right
      have hmem := List.mem_filter.mp h1
      simpa using hmem.2
  constructor
  · intro h
    exact key h
  · intro h
    by_cases hg : loadMoreCollectorsFetches s nftId
    · simp only [loadMoreCollectors, if_pos hg] at h
      exact key h
    · simp only [loadMoreCollectors, if_neg hg] at h
      exact Or.inl h

/-- Witness for C2 at a concrete session holding two materialized collector
profiles: a genuinely new address admitted by a further batch is either
already materialized or genuinely unknown (here the latter). -/
theorem C2_case_variant_cross_batch_single_node_witness :
    "0xNew" ∈ mkeys caseBatchState.collectorProfiles ∨
      lowerStr "0xNew" ∉ knownAddressesOf caseBatchState :=
  (C2_case_variant_cross_batch_single_node caseBatchState 2
    { owners := ["0xNew"], cursor := none, hasMore := false }
    (fun _ => none) "0xNew").1 (by decide)

/-- Counterexample to C2 as stated: two case variants of one address arriving
in the same collector batch each materialize their own profile entry, giving
two distinct graph nodes for one case-insensitive identity. -/
theorem C2_cex_same_batch_two_nodes :
    mkeys caseBatchState.collectorProfiles = ["0xAbC123", "0xabc123"] ∧
    lowerStr "0xAbC123" = lowerStr "0xabc123" ∧
    (gNodes caseBatchState).map NodeDataM.id = [1000, 1001] := by decide

/-- C4 (amended): when the enrichment fetch for an accepted collector address
fails or returns not-ok, the committed profile entity is the deterministic
fallback — username is the first 6 characters of the address, then `"..."`,
then the last 4 characters, and the avatar is the identicon URL seeded by the
address as provided (not lowercased) — and the session error message is left
untouched. -/
theorem C4_fallback_profile_shape (s : SessionState) (nftId : Nat)
    (resp : CollectorsResp) (fetchProfile : String → Option UserProfileM)
    (a : String)
    (ha : a ∈ acceptedCollectors s resp.owners)
    (hf : fetchProfile a = none)
    (hnew : mget a s.collectorProfiles = none) :
    mget a (loadCollectors s nftId resp fetchProfile).collectorProfiles
      = some { address := some a,
               username := some (a.take 6 ++ "..." ++ a.takeRight 4),
               profile_image_url :=
                 some ("https://api.dicebear.com/7.x/identicon/svg?seed="
                   ++ a) } ∧
    (loadCollectors s nftId resp fetchProfile).errorMsg = s.errorMsg := by
  constructor
  · have := mget_enrichProfiles_fallback hnew ha hf
    simpa [fallbackProfile, shortAddr] using this
  · rfl

/-- Witness for C4 at a concrete failing enrichment. -/
theorem C4_fallback_profile_shape_witness :
    mget "0xAbCdEf123456"
        (loadCollectors initialState 1
          { owners := ["0xAbCdEf123456"], cursor := none, hasMore := false }
          (fun _ => none)).collectorProfiles
      = some { address := some "0xAbCdEf123456",
               username := some ("0xAbCdEf123456".take 6 ++ "..."
                 ++ "0xAbCdEf123456".takeRight 4),
               profile_image_url :=
                 some ("https://api.dicebear.com/7.x/identicon/svg?seed="
                   ++ "0xAbCdEf123456") } ∧
    (loadCollectors initialState 1
        { owners := ["0xAbCdEf123456"], cursor := none, hasMore := false }
        (fun _ => none)).errorMsg = initialState.errorMsg :=
  C4_fallback_profile_shape initialState 1
    { owners := ["0xAbCdEf123456"], cursor := none, hasMore := false }
    (fun _ => none) "0xAbCdEf123456" (by decide) rfl (by decide)

/-- Counterexample to C4 as stated: the identicon seed is the address as
provided, which differs from the lowercased address required by the claim. -/
theorem C4_cex_seed_not_lowercased :
    mget "0xAbCdEf123456" fallbackState.collectorProfiles
      = some { address := some "0xAbCdEf123456",
               username := some "0xAbCd...3456",
               profile_image_url := some
                 "https://api.dicebear.com/7.x/identicon/svg?seed=0xAbCdEf123456" } ∧
    ("https://api.dicebear.com/7.x/identicon/svg?seed=0xAbCdEf123456" : String)
      ≠ "https://api.dicebear.com/7.x/identicon/svg?seed="
        ++ lowerStr "0xAbCdEf123456" := by decide

/-- C1 (amended): an NFT whose identity key is registered in the
contract-expansion map produces zero ownership links in the projection, and
the suppression is permanent: a collection merge — the operation through
which ownership facts are recorded — never changes the contract-expansion
map, and the projection of any merged state still has zero ownership links
for that NFT. -/
theorem C1_contract_expansion_links_suppressed (s : SessionState) (i : Nat)
    (n : NFTDataM) (hn : s.nfts[i]? = some n)
    (hexp : isFromContractExpansion s (nftKey n) = true) :
    (∀ l ∈ ownershipLinks s, l.target ≠ i + 1) ∧
    (∀ p resp, (loadCollection s p resp).contractNFTs = s.contractNFTs) ∧
    (∀ p resp, ∀ l ∈ ownershipLinks (loadCollection s p resp),
      l.target ≠ i + 1) := by
  have main : ∀ (t : SessionState), t.nfts[i]? = some n →
      isFromContractExpansion t (nftKey n) = true →
      ∀ l ∈ ownershipLinks t, l.target ≠ i + 1 := by
    intro t htn htexp l hl ht
    rw [ownershipLinks, List.mem_flatMap] at hl
    obtain ⟨pr, hpr, hin⟩ := hl
    obtain ⟨j, m⟩ := pr
    by_cases hc : isFromContractExpansion t (nftKey m)
    · rw [if_pos hc] at hin
      exact absurd hin (List.not_mem_nil l)
    · rw [if_neg hc] at hin
      rw [List.mem_map] at hin
      obtain ⟨o, ho, rfl⟩ := hin
      have hji : j = i := by simpa using ht
      subst hji
      have hm : t.nfts[j]? = some m := List.mk_mem_enum_iff_getElem?.mp hpr
      rw [htn] at hm
      have hnm : n = m := Option.some.inj hm
      rw [← hnm] at hc
      exact hc htexp
  have hstable : ∀ (p : Nat) (resp : NFTResp),
      (loadCollection s p resp).contractNFTs = s.contractNFTs :=
    fun p resp => rfl
  refine ⟨main s hn hexp, hstable, ?_⟩
  intro p resp l hl
  have hlen : i < s.nfts.length := (List.getElem?_eq_some.mp hn).1
  have hn' : (loadCollection s p resp).nfts[i]? = some n := by
    show (s.nfts ++ _)[i]? = some n
    rw [List.getElem?_append, if_pos hlen]
    exact hn
  have hexp' : isFromContractExpansion (loadCollection s p resp)
      (nftKey n) = true := hexp
  exact main (loadCollection s p resp) hn' hexp' l hl

/-- Witness for C1 at the concrete contract-expanded session: a collection
merge over it leaves the contract-expansion map unchanged. -/
theorem C1_contract_expansion_links_suppressed_witness :
    (loadCollection expandedState 0
        { nfts := [nftA], next := none }).contractNFTs
      = expandedState.contractNFTs :=
  (C1_contract_expansion_links_suppressed expandedState 0 nftA (by decide)
    (by decide)).2.1 0 { nfts := [nftA], next := none }

/-- Counterexample to C1 as stated: after `nftA` is admitted via contract
expansion and an ownership fact for it is then recorded by a collection
fetch (owner set `{0}` is stored), the projection still contains zero
ownership links — they do not appear once ownership is recorded. -/
theorem C1_cex_record_then_still_unlinked :
    recordedState.nfts = [nftA] ∧
    isFromContractExpansion recordedState (nftKey nftA) = true ∧
    mget 0 recordedState.multiOwnership = some [0] ∧
    ownershipLinks recordedState = [] := by decide

/-! Node-id membership lemmas for the projection. -/

theorem mem_nodeIds_zero (s : SessionState) (h : hasMainNode s = true) :
    (0 : Nat) ∈ nodeIds s := by
  cases hup : s.userProfile with
  | none => simp [hasMainNode, hup] at h
  | some up =>
    simp [hasMainNode, hup] at h
    obtain ⟨img, hpi⟩ := Option.isSome_iff_exists.mp h
    simp [nodeIds, gNodes, hup, hpi]

theorem mem_nodeIds_nft (s : SessionState) {i : Nat}
    (h : i < s.nfts.length) : i + 1 ∈ nodeIds s := by
  unfold nodeIds gNodes
  have h1 : (i, s.nfts[i]) ∈ s.nfts.enum := by
    rw [List.mk_mem_enum_iff_getElem?]
    exact List.getElem?_eq_getElem h
  refine List.mem_map.mpr ⟨_, List.mem_append.mpr (Or.inl
    (List.mem_append.mpr (Or.inr (List.mem_map.mpr ⟨_, h1, rfl⟩)))), rfl⟩

theorem mem_nodeIds_collector (s : SessionState) {k : Nat}
    (h : k < s.collectorProfiles.length) : 1000 + k ∈ nodeIds s := by
  unfold nodeIds gNodes
  have h1 : (k, s.collectorProfiles[k]) ∈ s.collectorProfiles.enum := by
    rw [List.mk_mem_enum_iff_getElem?]
    exact List.getElem?_eq_getElem h
  refine List.mem_map.mpr ⟨_, List.mem_append.mpr
    (Or.inr (List.mem_map.mpr ⟨_, h1, rfl⟩)), rfl⟩

/-- C3 (amended): in any session satisfying the session invariant whose main
profile node is materialized, the projection contains no dangling links:
every link's source and target ids are ids of projected nodes. (Without the
materialization proviso the guarantee fails, because ownership links may
reference the absent node 0 — see the counterexample.) -/
theorem C3_no_dangling_links_with_main_node (s : SessionState)
    (hinv : sessionInvariant s) (hmain : hasMainNode s = true) :
    noDanglingLinks s := by
  intro l hl
  rw [gLinks] at hl
  rcases List.mem_append.mp hl with hl12 | hl3
  · rcases List.mem_append.mp hl12 with hl1 | hl2
    · rw [ownershipLinks, List.mem_flatMap] at hl1
      obtain ⟨pr, hpr, hin⟩ := hl1
      obtain ⟨j, m⟩ := pr
      have hjlt : j < s.nfts.length :=
        (List.getElem?_eq_some.mp (List.mk_mem_enum_iff_getElem?.mp hpr)).1
      by_cases hc : isFromContractExpansion s (nftKey m)
      · rw [if_pos hc] at hin
        exact absurd hin (List.not_mem_nil l)
      · rw [if_neg hc] at hin
        rw [List.mem_map] at hin
        obtain ⟨o, ho, rfl⟩ := hin
        have hok : ownerIdOk s o := by
          unfold effectiveOwners at ho
          cases hmm : mget j s.multiOwnership with
          | some owners =>
            rw [hmm] at ho
            simp at ho
            exact hinv.1 (j, owners) (mget_mem hmm) o ho
          | none =>
            rw [hmm] at ho
            simp at ho
            cases hso : mget j s.nftOwnership with
            | some v =>
              rw [hso] at ho
              simp at ho
              rw [ho]
              exact hinv.2.1 (j, v) (mget_mem hso)
            | none =>
              rw [hso] at ho
              simp at ho
              rw [ho]
              exact Or.inl rfl
        constructor
        · show o ∈ nodeIds s
          rcases hok with h0 | ⟨hge, hlt⟩
          · subst h0
            exact mem_nodeIds_zero s hmain
          · have heq : o = 1000 + (o - 1000) := by omega
            rw [heq]
            exact mem_nodeIds_collector s (by omega)
        · show j + 1 ∈ nodeIds s
          exact mem_nodeIds_nft s hjlt
    · rw [contractLinks, List.mem_flatMap] at hl2
      obtain ⟨pr, hpr, hin⟩ := hl2
      obtain ⟨j, m⟩ := pr
      rw [List.mem_filterMap] at hin
      obtain ⟨qr, hqr, hq⟩ := hin
      obtain ⟨j', m'⟩ := qr
      have hjlt : j < s.nfts.length :=
        (List.getElem?_eq_some.mp (List.mk_mem_enum_iff_getElem?.mp hpr)).1
      have hjlt' : j' < s.nfts.length :=
        (List.getElem?_eq_some.mp (List.mk_mem_enum_iff_getElem?.mp hqr)).1
      by_cases hcond : j < j' ∧ m.contract = m'.contract
      · rw [if_pos hcond] at hq
        have hrec := Option.some.inj hq
        rw [← hrec]
        exact ⟨mem_nodeIds_nft s hjlt, mem_nodeIds_nft s hjlt'⟩
      · rw [if_neg hcond] at hq
        cases hq
  · rw [collectorLinks, List.mem_flatMap] at hl3
    obtain ⟨kv, hkv, hin⟩ := hl3
    rw [List.mem_map] at hin
    obtain ⟨cid, hcid, rfl⟩ := hin
    rw [collectorNodeIds, List.mem_filterMap] at hcid
    obtain ⟨a, ha, hres⟩ := hcid
    cases hidx : jsIndexOf (mkeys s.collectorProfiles) a with
    | none => rw [hidx] at hres; cases hres
    | some k =>
      rw [hidx] at hres
      have hcid2 := Option.some.inj hres
      have hk : k < (mkeys s.collectorProfiles).length := jsIndexOf_some_lt hidx
      have hk2 : k < s.collectorProfiles.length := by
        simpa [mkeys] using hk
      have hkey := hinv.2.2 kv hkv
      constructor
      · show cid ∈ nodeIds s
        rw [← hcid2]
        exact mem_nodeIds_collector s hk2
      · show kv.1 ∈ nodeIds s
        have heq : kv.1 = (kv.1 - 1) + 1 := by omega
        rw [heq]
        exact mem_nodeIds_nft s (by omega)

/-- Witness for C3 at a concrete invariant-satisfying session with a
materialized main profile node. -/
theorem C3_no_dangling_links_with_main_node_witness :
    noDanglingLinks ownedState :=
  C3_no_dangling_links_with_main_node ownedState (by decide) (by decide)

/-- Counterexample to C3 as stated: a session reached by searching a profile
without a profile image and loading its collection projects an ownership link
whose source, node id 0, is not among the projected nodes. -/
theorem C3_cex_dangling_owner_link :
    gLinks danglingState
      = [{ source := 0, target := 1, linkType := LinkKind.profileToNft }] ∧
    nodeIds danglingState = [1] ∧
    ¬ noDanglingLinks danglingState := by
  refine ⟨by decide, by decide, ?_⟩
  intro hno
  have := hno { source := 0, target := 1, linkType := LinkKind.profileToNft }
    (by decide)
  exact absurd this.1 (by decide)

end SixDegrees
